import Mathlib

/-!
Shallow embedding of the camera / perspective-projection core of the
Plasius hexagons explorer (`src/state/gameStateProvider.tsx`) and of the
SVG tiling helper (`src/game.tsx` / `worldMap`).  JavaScript `number`
arithmetic is idealised as real arithmetic; `Math.sin`/`cos`/`sqrt` map to
`Real.sin`/`Real.cos`/`Real.sqrt`, and the JS remainder operator `%`
(truncated division remainder) is modelled explicitly by `jsMod`.
-/

namespace Hexagons

open Real

/-! ### Constants (gameStateProvider.tsx, lines 73-83) -/

def HEX_SIZE : ℝ := 18
def HEIGHT_SCALE : ℝ := 26
def HUMAN_EYE_HEIGHT : ℝ := 1.72
def WALK_SPEED : ℝ := 20
def FLY_SPEED : ℝ := 32
def VERTICAL_FLY_SPEED : ℝ := 22
def LOOK_SENSITIVITY : ℝ := 0.0032
def NEAR_PLANE : ℝ := 0.5
def FAR_PLANE : ℝ := 1100
noncomputable def FOV_RAD : ℝ := Real.pi / 3

/-! ### Data model -/

/-- Source `TerrainCell` from `@plasius/gpu-world-generator`: per-cell terrain
attributes.  The enum-valued fields are modelled as naturals. -/
structure TerrainCell where
  height : ℝ
  heat : ℝ
  moisture : ℝ
  biome : ℕ
  macroBiome : Option ℕ := none
  surface : Option ℕ := none
  feature : Option ℕ := none

/-- Source `HexMapTile` (worldMap): axial coordinates, planar world position,
precomputed polygon string and colour, terrain payload. -/
structure HexMapTile where
  q : ℤ
  r : ℤ
  x : ℝ
  y : ℝ
  points : String
  color : String
  terrain : TerrainCell

/-- Source `CameraPose` (gameStateProvider.tsx, lines 87-93). -/
structure CameraPose where
  x : ℝ
  y : ℝ
  z : ℝ
  yaw : ℝ
  pitch : ℝ

/-- Locomotion mode `"walk" | "fly"`. -/
inductive ExplorerMode where
  | walk
  | fly
deriving DecidableEq

/-! ### Geometry helpers -/

/-- Source `clamp(value, min, max) = Math.min(max, Math.max(min, value))`
(gameStateProvider.tsx, lines 107-109). -/
noncomputable def clamp (value lo hi : ℝ) : ℝ := min hi (max lo value)

/-- Truncation toward zero of a real, as performed by JS integer
conversion inside the `%` operator. -/
noncomputable def rtrunc (x : ℝ) : ℤ := if 0 ≤ x then ⌊x⌋ else ⌈x⌉

/-- The JS remainder operator `a % b`: remainder of truncated division,
taking the sign of the dividend. -/
noncomputable def jsMod (a b : ℝ) : ℝ := a - b * rtrunc (a / b)

/-- Source `wrapAngle(value)` (gameStateProvider.tsx, lines 111-115):
`((value % full) + full) % full`, folded down past π. -/
noncomputable def wrapAngle (value : ℝ) : ℝ :=
  let full := Real.pi * 2
  let wrapped := jsMod (jsMod value full + full) full
  if wrapped > Real.pi then wrapped - full else wrapped

/-- A planar hexagon corner. -/
structure HexCorner where
  x : ℝ
  z : ℝ

/-- Source `hexCorners(centerX, centerZ, size)` (gameStateProvider.tsx, lines
117-127): the 6 vertices of a pointy-top hexagon, vertex `i` at angle
`(π/180)·(60·i + 30)`. -/
noncomputable def hexCorners (centerX centerZ size : ℝ) : List HexCorner :=
  (List.range 6).map fun i =>
    let angle := (Real.pi / 180) * (60 * i + 30)
    { x := centerX + size * Real.cos angle
      z := centerZ + size * Real.sin angle }

/-! ### Ground sampler -/

/-- The squared-Euclidean distance computed inside the
`findNearestTileIndex` loop: `dx*dx + dz*dz` with `dx = tile.x - x`,
`dz = tile.y - z`. -/
noncomputable def tileDistSq (tile : HexMapTile) (x z : ℝ) : ℝ :=
  (tile.x - x) * (tile.x - x) + (tile.y - z) * (tile.y - z)

/-- The scan loop of `findNearestTileIndex` (gameStateProvider.tsx, lines
148-157), carrying the running best index and best distance.  The source
starts `nearestDistance` at `+∞`, so the first iteration always updates;
here the caller seeds the loop with the first tile, which is the same
control flow. -/
noncomputable def nearestAux (x z : ℝ) :
    List HexMapTile → ℕ → ℕ → ℝ → ℕ
  | [], _, bestIdx, _ => bestIdx
  | tile :: rest, idx, bestIdx, bestDist =>
    let distance := tileDistSq tile x z
    if distance < bestDist then
      nearestAux x z rest (idx + 1) idx distance
    else
      nearestAux x z rest (idx + 1) bestIdx bestDist

/-- Source `findNearestTileIndex(tiles, x, z)` (gameStateProvider.tsx, lines
142-159): returns 0 on an empty list, otherwise a linear scan for the
minimum squared distance, first-encountered minimum winning. -/
noncomputable def findNearestTileIndex (tiles : List HexMapTile) (x z : ℝ) : ℕ :=
  match tiles with
  | [] => 0
  | tile :: rest => nearestAux x z rest 1 0 (tileDistSq tile x z)

/-- Source `sampleGroundHeight(tiles, x, z)` (gameStateProvider.tsx, lines
161-168): elevation of the nearest tile scaled by `HEIGHT_SCALE`, or 0
when no tile resolves. -/
noncomputable def sampleGroundHeight (tiles : List HexMapTile) (x z : ℝ) : ℝ :=
  match tiles.get? (findNearestTileIndex tiles x z) with
  | none => 0
  | some tile => tile.terrain.height * HEIGHT_SCALE

/-! ### Camera pose model -/

/-- The set of held keys read by the per-frame update (`keysRef`),
restricted to the codes `tick` inspects.  `kq` is `KeyQ`. -/
structure Keys where
  kw : Bool := false
  ks : Bool := false
  ka : Bool := false
  kd : Bool := false
  arrowUp : Bool := false
  arrowDown : Bool := false
  arrowLeft : Bool := false
  arrowRight : Bool := false
  shiftLeft : Bool := false
  shiftRight : Bool := false
  space : Bool := false
  ke : Bool := false
  kc : Bool := false
  kq : Bool := false

/-- Source `deltaSeconds = Math.min(0.05, (now - lastTime) / 1000)`
(gameStateProvider.tsx, line 462). -/
noncomputable def clampDelta (nowMs lastMs : ℝ) : ℝ :=
  min 0.05 ((nowMs - lastMs) / 1000)

/-- The camera-pose part of the per-frame `tick` callback
(gameStateProvider.tsx, lines 458-499): planar movement from held keys
rotated by yaw, ground resampling, walk-mode height pin or fly-mode
vertical integration with floor clamp, then the pitch clamp and yaw wrap. -/
noncomputable def tickCamera (mode : ExplorerMode) (tiles : List HexMapTile)
    (camera : CameraPose) (keys : Keys) (deltaSeconds : ℝ) : CameraPose :=
  let sprint := keys.shiftLeft || keys.shiftRight
  let baseSpeed := match mode with
    | .fly => FLY_SPEED
    | .walk => WALK_SPEED
  let speed := if sprint then baseSpeed * 1.85 else baseSpeed
  let inputX : ℝ :=
    (if keys.ka || keys.arrowLeft then (-1 : ℝ) else 0) +
    (if keys.kd || keys.arrowRight then (1 : ℝ) else 0)
  let inputZ : ℝ :=
    (if keys.kw || keys.arrowUp then (1 : ℝ) else 0) +
    (if keys.ks || keys.arrowDown then (-1 : ℝ) else 0)
  let inputLength := Real.sqrt (inputX * inputX + inputZ * inputZ)
  let sinYaw := Real.sin camera.yaw
  let cosYaw := Real.cos camera.yaw
  let x1 :=
    if inputLength > 0 then
      camera.x + (inputX / inputLength * cosYaw + inputZ / inputLength * sinYaw)
        * speed * deltaSeconds
    else camera.x
  let z1 :=
    if inputLength > 0 then
      camera.z + (inputZ / inputLength * cosYaw - inputX / inputLength * sinYaw)
        * speed * deltaSeconds
    else camera.z
  let ground := sampleGroundHeight tiles x1 z1
  let y1 := match mode with
    | .walk => ground + HUMAN_EYE_HEIGHT
    | .fly =>
      let verticalInput : ℝ :=
        (if keys.space || keys.ke then (1 : ℝ) else 0) +
        (if keys.kc || keys.kq then (-1 : ℝ) else 0)
      max (camera.y + verticalInput * VERTICAL_FLY_SPEED * deltaSeconds)
        (ground + 0.6)
  { x := x1
    y := y1
    z := z1
    yaw := wrapAngle camera.yaw
    pitch := clamp camera.pitch (-1.2) 0.75 }

/-- The camera mutation in `handlePointerMove` (gameStateProvider.tsx,
lines 549-551), for a drag delta `(dx, dy)` in client pixels. -/
noncomputable def pointerMoveCamera (camera : CameraPose) (dx dy : ℝ) :
    CameraPose :=
  { camera with
    yaw := wrapAngle (camera.yaw + dx * LOOK_SENSITIVITY)
    pitch := clamp (camera.pitch - dy * LOOK_SENSITIVITY * 0.82) (-1.2) 0.75 }

/-- Source `initialCamera(tiles)` (gameStateProvider.tsx, lines 170-196): fixed
default pose for an empty world, otherwise the tile-centroid pose with
ground-pinned height and fixed scouting yaw/pitch.  The source's
accumulation loop is the pair of `foldl`s. -/
noncomputable def initialCamera (tiles : List HexMapTile) : CameraPose :=
  if tiles.isEmpty then
    { x := 0, y := HUMAN_EYE_HEIGHT, z := 0, yaw := 0, pitch := -0.35 }
  else
    let sumX := tiles.foldl (fun s tile => s + tile.x) (0 : ℝ)
    let sumZ := tiles.foldl (fun s tile => s + tile.y) (0 : ℝ)
    let x := sumX / tiles.length
    let z := sumZ / tiles.length
    let ground := sampleGroundHeight tiles x z
    { x := x
      y := ground + HUMAN_EYE_HEIGHT
      z := z
      yaw := -Real.pi * 0.12
      pitch := -0.38 }

/-! ### Perspective projector -/

/-- A world-space point fed to the projector. -/
structure WorldPoint where
  x : ℝ
  y : ℝ
  z : ℝ

/-- Source `ProjectedPoint` (gameStateProvider.tsx, lines 198-202). -/
structure ProjectedPoint where
  x : ℝ
  y : ℝ
  depth : ℝ

/-- The forward-axis depth `zPitch` computed by `projectPoint` after the
yaw-then-pitch camera rotation (gameStateProvider.tsx, lines 211-223). -/
noncomputable def forwardDepth (point : WorldPoint) (camera : CameraPose) : ℝ :=
  let dx := point.x - camera.x
  let dy := point.y - camera.y
  let dz := point.z - camera.z
  let zYaw := Real.sin camera.yaw * dx + Real.cos camera.yaw * dz
  Real.sin camera.pitch * dy + Real.cos camera.pitch * zYaw

/-- Source `projectPoint(point, camera, viewportWidth, viewportHeight,
focalLength)` (gameStateProvider.tsx, lines 204-234): camera-relative
translation, yaw then pitch rotation, near/far rejection, perspective
divide; `null` is `none`. -/
noncomputable def projectPoint (point : WorldPoint) (camera : CameraPose)
    (viewportWidth viewportHeight focalLength : ℝ) : Option ProjectedPoint :=
  let dx := point.x - camera.x
  let dy := point.y - camera.y
  let dz := point.z - camera.z
  let sinYaw := Real.sin camera.yaw
  let cosYaw := Real.cos camera.yaw
  let xYaw := cosYaw * dx - sinYaw * dz
  let zYaw := sinYaw * dx + cosYaw * dz
  let sinPitch := Real.sin camera.pitch
  let cosPitch := Real.cos camera.pitch
  let yPitch := cosPitch * dy - sinPitch * zYaw
  let zPitch := sinPitch * dy + cosPitch * zYaw
  if zPitch ≤ NEAR_PLANE ∨ zPitch ≥ FAR_PLANE then
    none
  else
    some
      { x := viewportWidth * 0.5 + xYaw / zPitch * focalLength
        y := viewportHeight * 0.57 - yPitch / zPitch * focalLength
        depth := zPitch }

/-! ### Colour tinting -/

/-- Source `Math.round`: round half up. -/
noncomputable def jsRound (x : ℝ) : ℤ := ⌊x + 1 / 2⌋

/-- Value of one hexadecimal digit character, as `parseInt(..., 16)`
reads it.  (Malformed palette strings are a documented precondition of
the source; other characters map to 0 here.) -/
def hexVal (c : Char) : ℕ :=
  if '0' ≤ c ∧ c ≤ '9' then c.toNat - '0'.toNat
  else if 'a' ≤ c ∧ c ≤ 'f' then c.toNat - 'a'.toNat + 10
  else if 'A' ≤ c ∧ c ≤ 'F' then c.toNat - 'A'.toNat + 10
  else 0

/-- Lower-case hexadecimal digit for `n < 16`, as `toString(16)` emits. -/
def toHexDigit (n : ℕ) : Char :=
  if n < 10 then Char.ofNat ('0'.toNat + n) else Char.ofNat ('a'.toNat + n - 10)

/-- Source `channel.toString(16).padStart(2, "0")` for a channel in `[0, 255]`. -/
def byteToHex (n : ℕ) : String :=
  String.mk [toHexDigit (n / 16), toHexDigit (n % 16)]

/-- Source `tintHex(hex, amount)` (gameStateProvider.tsx, lines 129-140):
multiplies each RGB channel of a `#rgb`/`#rrggbb` colour by
`clamp(1 + amount, 0.2, 1.9)`, rounds and re-clamps to `[0, 255]`. -/
noncomputable def tintHex (hex : String) (amount : ℝ) : String :=
  let safe := hex.replace "#" ""
  let channels : List ℕ :=
    if safe.length = 3 then
      safe.toList.map fun c => hexVal c * 16 + hexVal c
    else
      [0, 2, 4].map fun off =>
        hexVal (safe.toList.getD off '0') * 16 +
          hexVal (safe.toList.getD (off + 1) '0')
  let factor := clamp (1 + amount) 0.2 1.9
  let next := channels.map fun channel =>
    byteToHex (min 255 (max 0 (jsRound ((channel : ℝ) * factor))).toNat)
  "#" ++ String.join next

/-! ### Scene renderer -/

/-- A draw-queue record (gameStateProvider.tsx, lines 255-260).  The
`Path2D` polygon is represented by the projected corners it is built
from (moveTo/lineTo/closePath over exactly these points). -/
structure DrawItem where
  corners : List ProjectedPoint
  color : String
  depth : ℝ
  highlighted : Bool

/-- The draw-queue construction loop of `renderScene`
(gameStateProvider.tsx, lines 262-309): project each tile's six corners
at its scaled elevation, skip the tile if any corner is rejected,
average the corner depths, shade by distance and elevation. -/
noncomputable def buildDrawQueue (tiles : List HexMapTile) (camera : CameraPose)
    (selectedIndex : ℕ) (width height focalLength : ℝ) : List DrawItem :=
  tiles.enum.filterMap fun p =>
    let index := p.1
    let tile := p.2
    let elevation := tile.terrain.height * HEIGHT_SCALE
    let corners := hexCorners tile.x tile.y HEX_SIZE
    match corners.mapM (fun corner =>
        projectPoint { x := corner.x, y := elevation, z := corner.z }
          camera width height focalLength) with
    | none => none
    | some projectedCorners =>
      if projectedCorners.isEmpty then none
      else
        let depth := (projectedCorners.map ProjectedPoint.depth).sum
          / (projectedCorners.length : ℝ)
        let distanceShade := clamp (1 - depth / 520) 0.2 1
        let elevationShade :=
          clamp ((elevation / HEIGHT_SCALE - 0.5) * 0.25) (-0.16) 0.18
        some
          { corners := projectedCorners
            color := tintHex tile.color (distanceShade - 1 + elevationShade)
            depth := depth
            highlighted := index == selectedIndex }

/-- The sorted draw queue of `renderScene` (gameStateProvider.tsx, lines
253 and 311): focal length from viewport height and vertical FOV, then
`drawQueue.sort((a, b) => b.depth - a.depth)` — descending depth,
back-to-front. -/
noncomputable def renderQueue (tiles : List HexMapTile) (camera : CameraPose)
    (selectedIndex : ℕ) (width height : ℝ) : List DrawItem :=
  let focalLength := height * 0.86 / Real.tan (FOV_RAD * 0.5)
  (buildDrawQueue tiles camera selectedIndex width height focalLength).mergeSort
    fun a b => decide (b.depth ≤ a.depth)

/-! ### SVG tiling helper (worldMap) -/

/-- Source `Number.prototype.toFixed(2)`: decimal formatting with two fraction
digits, rounding the magnitude half up. -/
noncomputable def toFixed2 (v : ℝ) : String :=
  let cents : ℕ := (⌊|v| * 100 + 1 / 2⌋).toNat
  let sign := if v < 0 then "-" else ""
  sign ++ toString (cents / 100) ++ "." ++
    (if cents % 100 < 10 then "0" else "") ++ toString (cents % 100)

/-- Source `hexPolygonPoints(x, y, size)` (worldMap, in game.tsx lines 284-293):
six `px,py` pairs at 2-decimal precision, space-joined, vertex `i` at
angle `(π/180)·(60·i + 30)`. -/
noncomputable def hexPolygonPoints (x y size : ℝ) : String :=
  String.intercalate " " ((List.range 6).map fun i =>
    let angle := (Real.pi / 180) * (60 * i + 30)
    let px := x + size * Real.cos angle
    let py := y + size * Real.sin angle
    toFixed2 px ++ "," ++ toFixed2 py)

/-! ### Helper lemmas -/

lemma clamp_mem (v lo hi : ℝ) (h : lo ≤ hi) :
    lo ≤ clamp v lo hi ∧ clamp v lo hi ≤ hi :=
  ⟨le_min h (le_max_left lo v), min_le_left hi _⟩

lemma jsMod_eq_sub (a b : ℝ) : ∃ k : ℤ, jsMod a b = a - b * k :=
  ⟨rtrunc (a / b), rfl⟩

lemma jsMod_nonneg_bounds (a b : ℝ) (hb : 0 < b) (ha : 0 ≤ a) :
    0 ≤ jsMod a b ∧ jsMod a b < b := by
  have hbne : b ≠ 0 := ne_of_gt hb
  have hfr : jsMod a b = b * Int.fract (a / b) := by
    unfold jsMod rtrunc
    rw [if_pos (div_nonneg ha hb.le), Int.fract]
    field_simp
  constructor
  · rw [hfr]
    exact mul_nonneg hb.le (Int.fract_nonneg _)
  · rw [hfr]
    exact mul_lt_of_lt_one_right hb (Int.fract_lt_one _)

lemma jsMod_bounds (a b : ℝ) (hb : 0 < b) :
    -b < jsMod a b ∧ jsMod a b < b := by
  rcases le_or_lt 0 a with ha | ha
  · obtain ⟨h1, h2⟩ := jsMod_nonneg_bounds a b hb ha
    exact ⟨by linarith, h2⟩
  · have hx : a / b < 0 := div_neg_of_neg_of_pos ha hb
    have hne : ¬ (0 ≤ a / b) := not_le.mpr hx
    have hceil : jsMod a b = a - b * ⌈a / b⌉ := by
      unfold jsMod rtrunc
      rw [if_neg hne]
    have hle : (a / b : ℝ) ≤ ⌈a / b⌉ := Int.le_ceil _
    have hlt : (⌈a / b⌉ : ℝ) < a / b + 1 := Int.ceil_lt_add_one _
    have hmul1 : a ≤ b * ⌈a / b⌉ := by
      have := mul_le_mul_of_nonneg_left hle hb.le
      rwa [mul_div_cancel₀ a (ne_of_gt hb)] at this
    have hmul2 : b * (⌈a / b⌉ : ℝ) < b * (a / b + 1) := by
      exact mul_lt_mul_of_pos_left hlt hb
    have : b * (a / b + 1) = a + b := by
      field_simp
    constructor
    · rw [hceil]; nlinarith
    · rw [hceil]; nlinarith

lemma wrapAngle_mem (θ : ℝ) :
    -Real.pi < wrapAngle θ ∧ wrapAngle θ ≤ Real.pi := by
  have hpi := Real.pi_pos
  have hfull : (0 : ℝ) < Real.pi * 2 := by linarith
  obtain ⟨h1l, h1u⟩ := jsMod_bounds θ (Real.pi * 2) hfull
  have harg : 0 ≤ jsMod θ (Real.pi * 2) + Real.pi * 2 := by linarith
  obtain ⟨h2l, h2u⟩ :=
    jsMod_nonneg_bounds (jsMod θ (Real.pi * 2) + Real.pi * 2) (Real.pi * 2)
      hfull harg
  simp only [wrapAngle]
  split_ifs with hw
  · constructor <;> linarith
  · push_neg at hw
    constructor <;> linarith

lemma wrapAngle_congr (θ : ℝ) : ∃ k : ℤ, wrapAngle θ = θ + 2 * Real.pi * k := by
  obtain ⟨k1, hk1⟩ := jsMod_eq_sub θ (Real.pi * 2)
  obtain ⟨k2, hk2⟩ := jsMod_eq_sub (jsMod θ (Real.pi * 2) + Real.pi * 2) (Real.pi * 2)
  simp only [wrapAngle]
  split_ifs
  · refine ⟨-(k1 + k2), ?_⟩
    rw [hk2, hk1]
    push_cast
    ring
  · refine ⟨1 - k1 - k2, ?_⟩
    rw [hk2, hk1]
    push_cast
    ring

/-! ### Claim theorems -/

/-- C5: for every real θ, `wrapAngle θ` lies in the half-open interval
(-π, π] and is congruent to θ modulo 2π. -/
theorem wrapAngle_range_and_congruent (θ : ℝ) :
    (-Real.pi < wrapAngle θ ∧ wrapAngle θ ≤ Real.pi) ∧
      ∃ k : ℤ, wrapAngle θ = θ + 2 * Real.pi * k :=
  ⟨wrapAngle_mem θ, wrapAngle_congr θ⟩

/-- C1: in walk mode, after every per-frame camera update — for any prior
camera pose, any held keys and any elapsed time — the camera height
equals the ground height sampled at the post-movement (x, z) plus the
eye-height constant, exactly. -/
theorem walk_mode_height_pin (tiles : List HexMapTile) (camera : CameraPose)
    (keys : Keys) (dt : ℝ) :
    (tickCamera .walk tiles camera keys dt).y =
      sampleGroundHeight tiles (tickCamera .walk tiles camera keys dt).x
        (tickCamera .walk tiles camera keys dt).z + HUMAN_EYE_HEIGHT := rfl

/-- C2: in fly mode, after every per-frame camera update — for any prior
height, any vertical input (including strong downward input) and any
elapsed time — the camera height is at least the ground height sampled at
the post-movement (x, z) plus the 0.6 clearance constant. -/
theorem fly_mode_floor_clamp (tiles : List HexMapTile) (camera : CameraPose)
    (keys : Keys) (dt : ℝ) :
    sampleGroundHeight tiles (tickCamera .fly tiles camera keys dt).x
        (tickCamera .fly tiles camera keys dt).z + 0.6 ≤
      (tickCamera .fly tiles camera keys dt).y := by
  have hy : (tickCamera .fly tiles camera keys dt).y =
      max (camera.y +
          ((if keys.space || keys.ke then (1 : ℝ) else 0) +
            (if keys.kc || keys.kq then (-1 : ℝ) else 0)) *
          VERTICAL_FLY_SPEED * dt)
        (sampleGroundHeight tiles (tickCamera .fly tiles camera keys dt).x
          (tickCamera .fly tiles camera keys dt).z + 0.6) := rfl
  rw [hy]
  exact le_max_right _ _

/-- C6: the orientation invariant — pitch ∈ [-1.2, 0.75] and
yaw ∈ (-π, π] — holds after every per-frame camera update and after every
pointer-drag look update, for any prior pose and any input. -/
theorem orientation_invariant_after_updates (mode : ExplorerMode)
    (tiles : List HexMapTile) (camera : CameraPose) (keys : Keys)
    (dt dx dy : ℝ) :
    (-1.2 ≤ (tickCamera mode tiles camera keys dt).pitch ∧
      (tickCamera mode tiles camera keys dt).pitch ≤ 0.75 ∧
      -Real.pi < (tickCamera mode tiles camera keys dt).yaw ∧
      (tickCamera mode tiles camera keys dt).yaw ≤ Real.pi) ∧
    (-1.2 ≤ (pointerMoveCamera camera dx dy).pitch ∧
      (pointerMoveCamera camera dx dy).pitch ≤ 0.75 ∧
      -Real.pi < (pointerMoveCamera camera dx dy).yaw ∧
      (pointerMoveCamera camera dx dy).yaw ≤ Real.pi) := by
  have hle : (-1.2 : ℝ) ≤ 0.75 := by norm_num
  have htp : (tickCamera mode tiles camera keys dt).pitch =
      clamp camera.pitch (-1.2) 0.75 := rfl
  have hty : (tickCamera mode tiles camera keys dt).yaw =
      wrapAngle camera.yaw := rfl
  have hpp : (pointerMoveCamera camera dx dy).pitch =
      clamp (camera.pitch - dy * LOOK_SENSITIVITY * 0.82) (-1.2) 0.75 := rfl
  have hpy : (pointerMoveCamera camera dx dy).yaw =
      wrapAngle (camera.yaw + dx * LOOK_SENSITIVITY) := rfl
  obtain ⟨h1, h2⟩ := clamp_mem camera.pitch (-1.2) 0.75 hle
  obtain ⟨h3, h4⟩ :=
    clamp_mem (camera.pitch - dy * LOOK_SENSITIVITY * 0.82) (-1.2) 0.75 hle
  obtain ⟨h5, h6⟩ := wrapAngle_mem camera.yaw
  obtain ⟨h7, h8⟩ := wrapAngle_mem (camera.yaw + dx * LOOK_SENSITIVITY)
  rw [htp, hty, hpp, hpy]
  exact ⟨⟨h1, h2, h5, h6⟩, h3, h4, h7, h8⟩

/-- C3: for every world point, camera pose, viewport size and focal
length, `projectPoint` returns `none` iff the forward-axis depth after
the yaw-then-pitch rotation is ≤ the near-plane threshold or ≥ the
far-plane threshold; in particular a point exactly at the camera
position (depth 0) is rejected. -/
theorem projectPoint_culling (camera : CameraPose) (w h f : ℝ) :
    (∀ point : WorldPoint,
      projectPoint point camera w h f = none ↔
        forwardDepth point camera ≤ NEAR_PLANE ∨
          FAR_PLANE ≤ forwardDepth point camera) ∧
    projectPoint ⟨camera.x, camera.y, camera.z⟩ camera w h f = none := by
  have hiff : ∀ point : WorldPoint,
      projectPoint point camera w h f = none ↔
        forwardDepth point camera ≤ NEAR_PLANE ∨
          FAR_PLANE ≤ forwardDepth point camera := by
    intro point
    simp only [projectPoint]
    split_ifs with hcond
    · exact iff_of_true rfl hcond
    · exact iff_of_false (by simp) hcond
  refine ⟨hiff, ?_⟩
  rw [hiff]
  left
  have hdz : forwardDepth ⟨camera.x, camera.y, camera.z⟩ camera = 0 := by
    simp [forwardDepth]
  rw [hdz]
  norm_num [NEAR_PLANE]

/-- C4: for a neutral-orientation camera (yaw = 0, pitch = 0) and a point
on its forward axis at distance D with near-plane < D < far-plane,
`projectPoint` projects to the horizontal centre of the viewport with
depth exactly D. -/
theorem projectPoint_forward_axis (cx cy cz D w h f : ℝ)
    (hD1 : NEAR_PLANE < D) (hD2 : D < FAR_PLANE) :
    ∃ pp : ProjectedPoint,
      projectPoint ⟨cx, cy, cz + D⟩ ⟨cx, cy, cz, 0, 0⟩ w h f = some pp ∧
        pp.x = w / 2 ∧ pp.depth = D := by
  have h05 : ¬ (D ≤ NEAR_PLANE) := not_le.mpr hD1
  have h11 : ¬ (D ≥ FAR_PLANE) := not_le.mpr hD2
  have key : projectPoint ⟨cx, cy, cz + D⟩ ⟨cx, cy, cz, 0, 0⟩ w h f =
      some ⟨w * 0.5, h * 0.57, D⟩ := by
    simp only [projectPoint]
    norm_num [Real.sin_zero, Real.cos_zero, h05, h11]
  exact ⟨⟨w * 0.5, h * 0.57, D⟩, key, by ring, rfl⟩

/-- Witness for C4 at D = 10 with an 800×600 viewport. -/
theorem projectPoint_forward_axis_witness :
    ∃ pp : ProjectedPoint,
      projectPoint ⟨0, 0, 0 + 10⟩ ⟨0, 0, 0, 0, 0⟩ 800 600 1 = some pp ∧
        pp.x = 800 / 2 ∧ pp.depth = 10 :=
  projectPoint_forward_axis 0 0 0 10 800 600 1 (by norm_num [NEAR_PLANE])
    (by norm_num [FAR_PLANE])

lemma foldl_add_eq_sum_map (tiles : List HexMapTile) (f : HexMapTile → ℝ) :
    ∀ a : ℝ, tiles.foldl (fun s tile => s + f tile) a = a + (tiles.map f).sum := by
  induction tiles with
  | nil => intro a; simp
  | cons tile rest ih =>
    intro a
    simp only [List.foldl_cons, List.map_cons, List.sum_cons, ih]
    ring

/-- C9: for a non-empty tile list the initial camera sits at the centroid
of the tile positions, at the ground height sampled there plus eye
height, with the fixed scouting yaw/pitch; for an empty list it is the
fixed default pose. -/
theorem initialCamera_centroid (tiles : List HexMapTile) :
    initialCamera tiles =
      if tiles.isEmpty then
        { x := 0, y := HUMAN_EYE_HEIGHT, z := 0, yaw := 0, pitch := -0.35 }
      else
        { x := (tiles.map HexMapTile.x).sum / tiles.length
          y := sampleGroundHeight tiles
                ((tiles.map HexMapTile.x).sum / tiles.length)
                ((tiles.map HexMapTile.y).sum / tiles.length) + HUMAN_EYE_HEIGHT
          z := (tiles.map HexMapTile.y).sum / tiles.length
          yaw := -Real.pi * 0.12
          pitch := -0.38 } := by
  simp only [initialCamera]
  split_ifs with h
  · rfl
  · rw [foldl_add_eq_sum_map tiles HexMapTile.x 0,
      foldl_add_eq_sum_map tiles HexMapTile.y 0]
    simp

/-- C10: the polygon string of the SVG tiling helper equals the 2-decimal
formatting of the six vertices produced by the 3D renderer's
`hexCorners` at the same centre and size, in the same order. -/
theorem hexPolygonPoints_matches_hexCorners (x y size : ℝ) :
    hexPolygonPoints x y size =
      String.intercalate " " ((hexCorners x y size).map fun p =>
        toFixed2 p.x ++ "," ++ toFixed2 p.z) := by
  simp only [hexPolygonPoints, hexCorners, List.map_map]
  rfl

/-- C8: the per-frame draw queue built by `renderScene` is sorted in
descending order of average corner depth, so for any two items the one
with the greater depth is drawn before the one with the lesser depth. -/
theorem renderQueue_sorted_back_to_front (tiles : List HexMapTile)
    (camera : CameraPose) (selectedIndex : ℕ) (width height : ℝ) :
    (renderQueue tiles camera selectedIndex width height).Pairwise
      fun a b => b.depth ≤ a.depth := by
  have htrans : ∀ a b c : DrawItem, decide (b.depth ≤ a.depth) = true →
      decide (c.depth ≤ b.depth) = true →
      decide (c.depth ≤ a.depth) = true := by
    intro a b c hab hbc
    simp only [decide_eq_true_eq] at *
    exact le_trans hbc hab
  have htotal : ∀ a b : DrawItem,
      (decide (b.depth ≤ a.depth) || decide (a.depth ≤ b.depth)) = true := by
    intro a b
    simp only [Bool.or_eq_true, decide_eq_true_eq]
    exact le_total b.depth a.depth
  have h := List.sorted_mergeSort htrans htotal
    (buildDrawQueue tiles camera selectedIndex width height
      (height * 0.86 / Real.tan (FOV_RAD * 0.5)))
  exact h.imp fun hab => by simpa using hab

instance : Inhabited HexMapTile :=
  ⟨{ q := 0, r := 0, x := 0, y := 0, points := "", color := "",
     terrain := { height := 0, heat := 0, moisture := 0, biome := 0 } }⟩

/-- Loop invariant of the `findNearestTileIndex` scan: if the remaining
suffix `rest` starts at index `idx` of the full list, the running best is
a valid earlier index whose distance is minimal (strictly minimal among
indices before it) over the prefix, then the loop result is the overall
first-encountered minimum. -/
lemma nearestAux_spec (x z : ℝ) (tiles : List HexMapTile) :
    ∀ (rest : List HexMapTile) (idx bestIdx : ℕ) (bestDist : ℝ),
      (∀ k, k < rest.length →
        rest.getD k default = tiles.getD (idx + k) default) →
      idx + rest.length = tiles.length →
      bestIdx < idx →
      bestDist = tileDistSq (tiles.getD bestIdx default) x z →
      (∀ j, j < idx → bestDist ≤ tileDistSq (tiles.getD j default) x z) →
      (∀ j, j < bestIdx → bestDist < tileDistSq (tiles.getD j default) x z) →
      nearestAux x z rest idx bestIdx bestDist < tiles.length ∧
      (∀ j, j < tiles.length →
        tileDistSq (tiles.getD (nearestAux x z rest idx bestIdx bestDist) default) x z ≤
          tileDistSq (tiles.getD j default) x z) ∧
      (∀ j, j < nearestAux x z rest idx bestIdx bestDist →
        tileDistSq (tiles.getD (nearestAux x z rest idx bestIdx bestDist) default) x z <
          tileDistSq (tiles.getD j default) x z) := by
  intro rest
  induction rest with
  | nil =>
    intro idx bestIdx bestDist hcorr hlen hbi hbd hmin hstrict
    simp only [nearestAux]
    have hidx : idx = tiles.length := by simpa using hlen
    subst hbd
    exact ⟨by omega, fun j hj => hmin j (by omega), hstrict⟩
  | cons tile rest ih =>
    intro idx bestIdx bestDist hcorr hlen hbi hbd hmin hstrict
    have htile : tile = tiles.getD idx default := by
      have h0 := hcorr 0 (by simp)
      simpa using h0
    have hcorr' : ∀ k, k < rest.length →
        rest.getD k default = tiles.getD (idx + 1 + k) default := by
      intro k hk
      have h1 := hcorr (k + 1) (by simp; omega)
      have h2 : idx + (k + 1) = idx + 1 + k := by omega
      simpa [h2] using h1
    have hlen' : idx + 1 + rest.length = tiles.length := by
      simp only [List.length_cons] at hlen
      omega
    simp only [nearestAux]
    split_ifs with hd
    · -- the scanned tile is strictly nearer: it becomes the running best
      apply ih (idx + 1) idx (tileDistSq tile x z) hcorr' hlen' (by omega)
        (by rw [htile])
      · intro j hj
        rcases Nat.lt_or_ge j idx with hji | hji
        · exact le_of_lt (lt_of_lt_of_le hd (hmin j hji))
        · have : j = idx := by omega
          subst this
          rw [← htile]
      · intro j hj
        exact lt_of_lt_of_le hd (hmin j hj)
    · -- the running best stays
      apply ih (idx + 1) bestIdx bestDist hcorr' hlen' (by omega) hbd
      · intro j hj
        rcases Nat.lt_or_ge j idx with hji | hji
        · exact hmin j hji
        · have : j = idx := by omega
          subst this
          rw [← htile]
          exact le_of_not_lt hd
      · exact hstrict

/-- C7: `findNearestTileIndex` returns 0 on an empty list; on a non-empty
list it returns a valid index whose squared Euclidean distance from the
query is minimal over the whole list, with ties broken in favour of the
lowest index. -/
theorem findNearestTileIndex_spec (tiles : List HexMapTile) (x z : ℝ) :
    (tiles = [] → findNearestTileIndex tiles x z = 0) ∧
    (tiles ≠ [] →
      findNearestTileIndex tiles x z < tiles.length ∧
      (∀ j, j < tiles.length →
        tileDistSq (tiles.getD (findNearestTileIndex tiles x z) default) x z ≤
          tileDistSq (tiles.getD j default) x z) ∧
      (∀ j, j < findNearestTileIndex tiles x z →
        tileDistSq (tiles.getD (findNearestTileIndex tiles x z) default) x z <
          tileDistSq (tiles.getD j default) x z)) := by
  match tiles with
  | [] => exact ⟨fun _ => rfl, fun hne => absurd rfl hne⟩
  | t :: ts =>
    constructor
    · intro h
      cases h
    intro _
    have hres : findNearestTileIndex (t :: ts) x z =
        nearestAux x z ts 1 0 (tileDistSq t x z) := rfl
    rw [hres]
    apply nearestAux_spec x z (t :: ts) ts 1 0 (tileDistSq t x z)
    · intro k hk
      rw [Nat.add_comm 1 k]
      simp
    · simp only [List.length_cons]
      omega
    · omega
    · simp
    · intro j hj
      have : j = 0 := by omega
      subst this
      simp
    · intro j hj
      omega

/-- Witness for C7: the empty-list degenerate case returns 0, and on two
concrete tiles at (0, 0) and (100, 100) the returned index is in range. -/
theorem findNearestTileIndex_spec_witness :
    findNearestTileIndex [] 1 1 = 0 ∧
    findNearestTileIndex
      [{ q := 0, r := 0, x := 0, y := 0, points := "", color := "",
         terrain := { height := 0, heat := 0, moisture := 0, biome := 0 } },
       { q := 1, r := 1, x := 100, y := 100, points := "", color := "",
         terrain := { height := 0, heat := 0, moisture := 0, biome := 0 } }]
      1 1 < 2 :=
  ⟨(findNearestTileIndex_spec [] 1 1).1 rfl,
    ((findNearestTileIndex_spec _ 1 1).2 (by simp)).1⟩

end Hexagons
